import Mathlib

/-!
Verification of the transcript segmentation and speaker-attribution pipeline
of the earnings-call analyzer.  The Python sources `utils/parser.py` and
`utils/pdf_utils.py` are shallowly embedded: strings are `List Char`, the
regular expressions used by the code are modelled by explicit scanning
functions with the same (leftmost, greedy-with-backtracking) semantics on the
ASCII fragment the patterns use, and external library calls (dateutil's
`parse`) are passed in as explicit function arguments.
-/

namespace EarningsCall

/-- Characters the Python runtime treats as whitespace (`str.strip`,
    `str.split`, the regex class `\s`); the ASCII set plus the common
    one-byte Unicode space characters. -/
def pyIsSpace (c : Char) : Bool :=
  c = ' ' || c = '\t' || c = '\n' || c = '\r' || c = '\x0b' || c = '\x0c' ||
  c = '\x1c' || c = '\x1d' || c = '\x1e' || c = '\x1f' || c = '\x85' || c = '\xa0'

/-- Line-break characters recognised by Python's `str.splitlines`. -/
def isLineBreak (c : Char) : Bool :=
  c = '\n' || c = '\r' || c = '\x0b' || c = '\x0c' || c = '\x1c' || c = '\x1d' ||
  c = '\x1e' || c = '\x85' || c = '\u2028' || c = '\u2029'

/-- Worker for `splitlines`: `cur` holds the characters of the current line
    in reverse order. -/
def splitlinesAux (cur : List Char) : List Char → List (List Char)
  | [] => if cur.isEmpty then [] else [cur.reverse]
  | '\r' :: '\n' :: rest => cur.reverse :: splitlinesAux [] rest
  | c :: rest =>
    if isLineBreak c then cur.reverse :: splitlinesAux [] rest
    else splitlinesAux (c :: cur) rest

/-- Python's `str.splitlines`: split at line breaks (treating `"\r\n"` as a
    single break), with no trailing empty line for a trailing break. -/
def splitlines (s : List Char) : List (List Char) := splitlinesAux [] s

/-- Python's `str.strip`: drop leading and trailing whitespace. -/
def pyStrip (l : List Char) : List Char :=
  ((l.dropWhile pyIsSpace).reverse.dropWhile pyIsSpace).reverse

/-- ASCII lower-casing of a string, Python's `str.lower` on the ASCII
    fragment. -/
def lowerL (l : List Char) : List Char := l.map Char.toLower

/-- ASCII upper-casing of a string, Python's `str.upper` on the ASCII
    fragment. -/
def upperL (l : List Char) : List Char := l.map Char.toUpper

/-- Does the pattern (first argument) occur at the head of the string? -/
def startsWithL : List Char → List Char → Bool
  | [], _ => true
  | _ :: _, [] => false
  | p :: ps, c :: cs => p == c && startsWithL ps cs

/-- Does the pattern occur anywhere in the string (plain substring search)? -/
def containsL (pat : List Char) : List Char → Bool
  | [] => startsWithL pat []
  | c :: rest => startsWithL pat (c :: rest) || containsL pat rest

/-- Index of the leftmost occurrence of the pattern, as `re.search` reports
    it for a literal pattern. -/
def firstIdxAux (pat : List Char) (i : Nat) : List Char → Option Nat
  | [] => if startsWithL pat [] then some i else none
  | c :: rest =>
    if startsWithL pat (c :: rest) then some i else firstIdxAux pat (i + 1) rest

/-- Leftmost occurrence of a literal pattern in a string. -/
def firstIdx (pat s : List Char) : Option Nat := firstIdxAux pat 0 s

/-- Regex word characters (`\w`) on the ASCII fragment. -/
def isWordChar (c : Char) : Bool := c.isAlphanum || c = '_'

/-- Word boundary test against the character before a match position. -/
def boundaryB : Option Char → Bool
  | none => true
  | some c => !isWordChar c

/-- Word boundary test against the characters after a match. -/
def boundaryA : List Char → Bool
  | [] => true
  | c :: _ => !isWordChar c

/-- Search for `\b w \b` for any `w` in `pats`; `prev` is the character just
    before the current position. -/
def wordSearchAux (pats : List (List Char)) (prev : Option Char) : List Char → Bool
  | [] => false
  | c :: rest =>
    (boundaryB prev &&
      pats.any (fun w => startsWithL w (c :: rest) && boundaryA ((c :: rest).drop w.length))) ||
    wordSearchAux pats (some c) rest

/-- Does some `\b w \b` occurrence (for `w` in `pats`) exist in `s`? -/
def wordOccurs (pats : List (List Char)) (s : List Char) : Bool :=
  wordSearchAux pats none s

/-- The interrogative words of the pattern
    `\b(what|how|why|when|where|which|who)\b.*\?`. -/
def whWords : List (List Char) :=
  ["what".toList, "how".toList, "why".toList, "when".toList,
   "where".toList, "which".toList, "who".toList]

/-- Search for `\b(wh-word)\b.*\?`: an interrogative word with word
    boundaries followed, on the same line (`.` does not cross `\n`), by a
    question mark. -/
def whQSearchAux (prev : Option Char) : List Char → Bool
  | [] => false
  | c :: rest =>
    (boundaryB prev &&
      whWords.any (fun w =>
        startsWithL w (c :: rest) &&
        boundaryA ((c :: rest).drop w.length) &&
        (((c :: rest).drop w.length).takeWhile (fun d => !(d == '\n'))).any (fun d => d == '?'))) ||
    whQSearchAux (some c) rest

/-- Top-level entry for the wh-word-then-question-mark search. -/
def whQOccurs (s : List Char) : Bool := whQSearchAux none s

/-- First words of the pattern `\b(first|next|follow-up)\s+(question|one)\b`. -/
def firstWords : List (List Char) := ["first".toList, "next".toList, "follow-up".toList]

/-- Second words of the pattern `\b(first|next|follow-up)\s+(question|one)\b`. -/
def secondWords : List (List Char) := ["question".toList, "one".toList]

/-- Match `(first|next|follow-up)\s+(question|one)\b` at the head of `s`. -/
def wordPairAt (s : List Char) : Bool :=
  firstWords.any (fun w1 =>
    startsWithL w1 s &&
    (let r := s.drop w1.length
     let ws := (r.takeWhile pyIsSpace).length
     decide (0 < ws) &&
     secondWords.any (fun w2 =>
       startsWithL w2 (r.drop ws) && boundaryA ((r.drop ws).drop w2.length))))

/-- Search for `\b(first|next|follow-up)\s+(question|one)\b`. -/
def wordPairSearchAux (prev : Option Char) : List Char → Bool
  | [] => false
  | c :: rest => (boundaryB prev && wordPairAt (c :: rest)) || wordPairSearchAux (some c) rest

/-- Does `\b(first|next|follow-up)\s+(question|one)\b` occur in `s`? -/
def wordPairOccurs (s : List Char) : Bool := wordPairSearchAux none s

/-! ### Speaker-line regular expressions

The patterns `SPEAKER_LINE_RE = ^(?P<speaker>[A-Z][A-Z0-9 \.\-]{2,60})[:\-\—]\s*(?P<message>.+)`
and its mixed-case variant are modelled with Python's greedy backtracking
semantics: the speaker group takes the longest class run (3 to 61 characters)
that still leaves a separator and a non-empty message. -/

/-- Separator characters `[:\-\—]` of the speaker-line patterns. -/
def sepChar (c : Char) : Bool := c = ':' || c = '-' || c = '—'

/-- First-character class `[A-Z]` of the strict speaker pattern. -/
def upperFirst (c : Char) : Bool := 'A' ≤ c && c ≤ 'Z'

/-- Repeated class `[A-Z0-9 \.\-]` of the strict speaker pattern. -/
def upperClass (c : Char) : Bool :=
  ('A' ≤ c && c ≤ 'Z') || ('0' ≤ c && c ≤ '9') || c = ' ' || c = '.' || c = '-'

/-- First-character class `[A-Za-z]` of the relaxed speaker pattern. -/
def alphaFirst (c : Char) : Bool := ('A' ≤ c && c ≤ 'Z') || ('a' ≤ c && c ≤ 'z')

/-- Repeated class `[A-Za-z0-9 \.\-]` of the relaxed speaker pattern. -/
def alphaClass (c : Char) : Bool :=
  alphaFirst c || ('0' ≤ c && c ≤ '9') || c = ' ' || c = '.' || c = '-'

/-- Largest `k ≤ n` with `ok k`, the backtracking order of a greedy group. -/
def searchDown (ok : Nat → Bool) : Nat → Option Nat
  | 0 => none
  | k + 1 => if ok (k + 1) then some (k + 1) else searchDown ok k

/-- The stored message of a speaker match: the `(?P<message>.+)` group after
    the separator, with the leading `\s*` consumed and `.strip()` applied.
    When the remainder is all whitespace the group can only take a trailing
    space, which strips to the empty string. -/
def msgGroup (rest : List Char) : List Char :=
  let ws := (rest.takeWhile pyIsSpace).length
  if ws < rest.length then pyStrip ((rest.drop ws).takeWhile (fun d => !(d == '\n')))
  else []

/-- Match one of the two speaker-line patterns against a whole line,
    returning the stripped speaker and message groups.  `first`/`cls` choose
    the strict (`[A-Z]...`) or relaxed (`[A-Za-z]...`) character classes. -/
def speakerLineMatch (first cls : Char → Bool) : List Char → Option (List Char × List Char)
  | [] => none
  | c :: rest =>
    if first c then
      match searchDown (fun k =>
          decide (3 ≤ k) && sepChar ((c :: rest).getD k ' ') &&
          ((c :: rest).drop (k + 1)).any (fun d => !(d == '\n')))
        (1 + min 60 (rest.takeWhile cls).length) with
      | some k => some (pyStrip ((c :: rest).take k), msgGroup ((c :: rest).drop (k + 1)))
      | none => none
    else none

/-- Match the prefix patterns `^<class run>[:\-\—]` used by
    `is_likely_speaker_line` (no message is required after the separator). -/
def likelySepPat (first cls : Char → Bool) (line : List Char) : Bool :=
  match line with
  | [] => false
  | c :: rest =>
    first c &&
      (searchDown (fun k => decide (3 ≤ k) && sepChar (line.getD k ' '))
        (1 + min 60 (rest.takeWhile cls).length)).isSome

/-- Match the prefix pattern `^[A-Z][A-Z0-9 \.\-]{2,60}\s+[A-Z]` (speaker
    name followed by a capital letter). -/
def likelyCapPat (line : List Char) : Bool :=
  match line with
  | [] => false
  | c :: rest =>
    upperFirst c &&
      (searchDown (fun k =>
          decide (3 ≤ k) &&
          (let r := line.drop k
           let ws := (r.takeWhile pyIsSpace).length
           decide (0 < ws) && upperFirst (r.getD ws ' ')))
        (1 + min 60 (rest.takeWhile upperClass).length)).isSome

/-- Embedding of `is_likely_speaker_line` from `utils/parser.py`. -/
def is_likely_speaker_line (line : List Char) : Bool :=
  likelySepPat upperFirst upperClass line ||
  likelySepPat alphaFirst alphaClass line ||
  likelyCapPat line

/-- Match the third extraction pattern
    `^(?P<speaker>[A-Z][A-Z0-9 \.\-]{2,60})\s+(?P<message>[A-Z].+)`. -/
def extractCapMatch : List Char → Option (List Char × List Char)
  | [] => none
  | c :: rest =>
    if upperFirst c then
      match searchDown (fun k =>
          decide (3 ≤ k) &&
          (let r := (c :: rest).drop k
           let ws := (r.takeWhile pyIsSpace).length
           decide (0 < ws) && upperFirst (r.getD ws ' ') &&
           !(r.drop (ws + 1)).isEmpty && !(r.getD (ws + 1) ' ' == '\n')))
        (1 + min 60 (rest.takeWhile upperClass).length) with
      | some k =>
        let r := (c :: rest).drop k
        let ws := (r.takeWhile pyIsSpace).length
        some (pyStrip ((c :: rest).take k),
          pyStrip ((r.drop ws).takeWhile (fun d => !(d == '\n'))))
      | none => none
    else none

/-- Embedding of `extract_speaker_from_line` from `utils/parser.py`: try the
    two separator patterns and then the capital-letter pattern; on total
    failure return an empty speaker with the whole line. -/
def extract_speaker_from_line (line : List Char) : List Char × List Char :=
  match speakerLineMatch upperFirst upperClass line with
  | some r => r
  | none =>
    match speakerLineMatch alphaFirst alphaClass line with
    | some r => r
    | none =>
      match extractCapMatch line with
      | some r => r
      | none => ([], line)

/-- One contiguous run of text attributed to a single raw speaker label. -/
structure SpeakerChunk where
  speaker_raw : List Char
  text : List Char
deriving DecidableEq, Repr

/-- State of the chunker loop: emitted chunks plus the chunk under
    construction. -/
structure ChunkState where
  chunks : List SpeakerChunk
  cur : Option SpeakerChunk
deriving DecidableEq, Repr

/-- One iteration of the `basic_speaker_chunks` loop body on a raw line. -/
def stepLine (st : ChunkState) (line : List Char) : ChunkState :=
  let ls := pyStrip line
  if ls.isEmpty then st
  else
    match speakerLineMatch upperFirst upperClass ls <|>
          speakerLineMatch alphaFirst alphaClass ls with
    | some (sp, msg) =>
      { chunks := st.chunks ++ st.cur.toList, cur := some ⟨sp, msg⟩ }
    | none =>
      match st.cur with
      | some c => { st with cur := some ⟨c.speaker_raw, c.text ++ '\n' :: ls⟩ }
      | none =>
        if is_likely_speaker_line ls then
          let sm := extract_speaker_from_line ls
          if sm.1.isEmpty then { st with cur := some ⟨"UNKNOWN".toList, ls⟩ }
          else { st with cur := some ⟨sm.1, sm.2⟩ }
        else { st with cur := some ⟨"UNKNOWN".toList, ls⟩ }

/-- Embedding of `basic_speaker_chunks` from `utils/parser.py`. -/
def basic_speaker_chunks (text : List Char) : List SpeakerChunk :=
  let st := (splitlines text).foldl stepLine ⟨[], none⟩
  st.chunks ++ st.cur.toList

/-! ### Role mapping (`map_speakers_to_roles`)

The rapidfuzz calls `process.extractOne(raw, participant_list,
scorer=fuzz.token_sort_ratio)` are embedded per the library's semantics
(processor `None`): `token_sort_ratio` splits both strings on whitespace,
sorts the tokens by code point, joins them with single spaces and returns
the normalized Indel similarity (`100 * 2 * LCS / (|a| + |b|)`) as an exact
rational; `extractOne` returns the first best-scoring choice. -/

/-- Python `str.split()` with no argument: split on whitespace runs,
    discarding empty pieces. -/
def pySplitWSAux (cur : List Char) : List Char → List (List Char)
  | [] => if cur.isEmpty then [] else [cur.reverse]
  | c :: rest =>
    if pyIsSpace c then
      if cur.isEmpty then pySplitWSAux [] rest
      else cur.reverse :: pySplitWSAux [] rest
    else pySplitWSAux (c :: cur) rest

/-- Python `str.split()` with no argument. -/
def pySplitWS (s : List Char) : List (List Char) := pySplitWSAux [] s

/-- Python string comparison: lexicographic on code points. -/
def lexLt : List Char → List Char → Bool
  | [], [] => false
  | [], _ :: _ => true
  | _ :: _, [] => false
  | a :: as, b :: bs =>
    if a.val < b.val then true else if b.val < a.val then false else lexLt as bs

/-- Insert a string into an ascending list, after all strictly smaller
    entries (the stable insertion used by sorting). -/
def insertSorted (x : List Char) : List (List Char) → List (List Char)
  | [] => [x]
  | y :: ys => if lexLt y x then y :: insertSorted x ys else x :: y :: ys

/-- Python `sorted` on a list of strings (ascending, stable). -/
def sortStrs : List (List Char) → List (List Char)
  | [] => []
  | x :: xs => insertSorted x (sortStrs xs)

/-- Python `" ".join`. -/
def joinSpace : List (List Char) → List Char
  | [] => []
  | [w] => w
  | w :: ws => w ++ ' ' :: joinSpace ws

/-- One row update of the longest-common-subsequence dynamic program:
    `up :: rest` walks the previous row, `diag` is the entry above-left and
    `left` the entry just written. -/
def lcsRowAux (a : Char) : List Char → List Nat → Nat → Nat → List Nat
  | b :: bs, up :: rest, diag, left =>
    let v := if a == b then diag + 1 else Nat.max up left
    v :: lcsRowAux a bs rest up v
  | _, _, _, _ => []

/-- Length of a longest common subsequence of two strings. -/
def lcsLen (s1 s2 : List Char) : Nat :=
  (s1.foldl (fun old a => 0 :: lcsRowAux a s2 old.tail (old.headD 0) 0)
    (List.replicate (s2.length + 1) 0)).getLastD 0

/-- rapidfuzz `fuzz.ratio`: the normalized Indel similarity on a 0-100
    scale, `100 * (1 - dist/(|a|+|b|))` with `dist = |a|+|b| - 2*LCS`. -/
def ratioScore (a b : List Char) : ℚ :=
  let l := a.length + b.length
  if l = 0 then mkRat 100 1 else mkRat (100 * 2 * (lcsLen a b : Int)) l

/-- rapidfuzz `fuzz.token_sort_ratio` with the default `processor=None`:
    sort the whitespace-separated tokens of each string and compare the
    space-joined results with `ratio`. -/
def token_sort_ratio (a b : List Char) : ℚ :=
  ratioScore (joinSpace (sortStrs (pySplitWS a))) (joinSpace (sortStrs (pySplitWS b)))

/-- rapidfuzz `process.extractOne` for this scorer: the first choice of
    maximal score, or `none` for an empty choice list. -/
def extractOne (query : List Char) (choices : List (List Char)) :
    Option (List Char × ℚ) :=
  choices.foldl (fun best c =>
    match best with
    | none => some (c, token_sort_ratio query c)
    | some (b, bs) =>
      let s := token_sort_ratio query c
      if bs < s then some (c, s) else some (b, bs)) none

/-- A chunk after role resolution, the dict
    `{speaker_name, speaker_raw, role, text}` built by
    `map_speakers_to_roles`. -/
structure MappedChunk where
  speaker_name : List Char
  speaker_raw : List Char
  role : List Char
  text : List Char
deriving DecidableEq, Repr

/-- Embedding of `map_speakers_to_roles` from `utils/parser.py`. -/
def map_speakers_to_roles (chunks : List SpeakerChunk)
    (participant_list : List (List Char)) : List MappedChunk :=
  chunks.map fun c =>
    let raw := c.speaker_raw
    if upperL (pyStrip raw) == "OPERATOR".toList ||
       upperL (pyStrip raw) == "MODERATOR".toList then
      ⟨raw, raw, "moderator".toList, c.text⟩
    else if participant_list.isEmpty then
      ⟨raw, raw, "investor".toList, c.text⟩
    else
      match extractOne raw participant_list with
      | some (n, s) =>
        if mkRat 75 1 < s then ⟨n, raw, "management".toList, c.text⟩
        else ⟨raw, raw, "investor".toList, c.text⟩
      | none => ⟨raw, raw, "investor".toList, c.text⟩

/-! ### Question detection and Q&A pairing -/

/-- Word list of the indicator `\b(question|ask|wondering|curious|inquire)\b`. -/
def questionWords : List (List Char) :=
  ["question".toList, "ask".toList, "wondering".toList, "curious".toList, "inquire".toList]

/-- Phrase list of the indicator `\b(can you|could you|would you|do you)\b`. -/
def canYouPhrases : List (List Char) :=
  ["can you".toList, "could you".toList, "would you".toList, "do you".toList]

/-- Word list of the pattern `\b(analyst|question|ask|wondering|curious|inquire)\b`. -/
def analystQuestionWords : List (List Char) :=
  "analyst".toList :: questionWords

/-- Embedding of `is_question_block` from `utils/parser.py`: lower-case the
    text, try the four `QUESTION_INDICATORS`, then the investor-role test,
    then the four `question_patterns`, in source order. -/
def is_question_block (block : MappedChunk) : Bool :=
  let text := lowerL block.text
  text.any (fun c => c == '?') ||
  wordOccurs questionWords text ||
  whQOccurs text ||
  wordOccurs canYouPhrases text ||
  block.role == "investor".toList ||
  wordOccurs analystQuestionWords text ||
  whQOccurs text ||
  wordOccurs canYouPhrases text ||
  wordPairOccurs text

/-- Letters, for the ignore-case class `[A-Z]` of the company patterns. -/
def letterChar (c : Char) : Bool := ('A' ≤ c && c ≤ 'Z') || ('a' ≤ c && c ≤ 'z')

/-- The class `[A-Za-z\s&]` of the company patterns. -/
def companyClass (c : Char) : Bool := letterChar c || pyIsSpace c || c = '&'

/-- Case-insensitive prefix test against an already lower-cased pattern. -/
def startsWithCI (pat s : List Char) : Bool := startsWithL pat (s.map Char.toLower)

/-- Leftmost match of `from\s+([A-Z][A-Za-z\s&]+)` (ignore-case), returning
    the stripped capture group. -/
def fromCompanyAux : List Char → Option (List Char)
  | [] => none
  | c :: rest =>
    (if startsWithCI "from".toList (c :: rest) then
       let r := (c :: rest).drop 4
       let ws := (r.takeWhile pyIsSpace).length
       if 0 < ws then
         match r.drop ws with
         | d :: rest2 =>
           if letterChar d then
             let run := rest2.takeWhile companyClass
             if run.isEmpty then none else some (pyStrip (d :: run))
           else none
         | [] => none
       else none
     else none) <|> fromCompanyAux rest

/-- Leftmost match of `([A-Z][A-Za-z\s&]+)\s+lit` (ignore-case) for a
    literal such as `analyst` or `here`, returning the stripped group; the
    greedy group backtracks from the longest class run. -/
def companyBeforeAux (lit : List Char) : List Char → Option (List Char)
  | [] => none
  | c :: rest =>
    (if letterChar c then
       match searchDown (fun k =>
           decide (2 ≤ k) &&
           (let r := (c :: rest).drop k
            let ws := (r.takeWhile pyIsSpace).length
            decide (0 < ws) && startsWithCI lit (r.drop ws)))
         (1 + (rest.takeWhile companyClass).length) with
       | some k => some (pyStrip ((c :: rest).take k))
       | none => none
     else none) <|> companyBeforeAux lit rest

/-- The `question_context` record `{speaker, company, role}`. -/
structure QContext where
  speaker : List Char
  company : List Char
  role : List Char
deriving DecidableEq, Repr

/-- Embedding of `extract_question_context` from `utils/parser.py`. -/
def extract_question_context (qb : MappedChunk) : QContext :=
  let text := qb.text
  let lower := lowerL text
  let company :=
    match fromCompanyAux text with
    | some comp => comp
    | none =>
      match companyBeforeAux "analyst".toList text with
      | some comp => comp
      | none =>
        match companyBeforeAux "here".toList text with
        | some comp => comp
        | none => "Unknown".toList
  let role :=
    if containsL "analyst".toList lower then "Analyst".toList
    else if containsL "investor".toList lower then "Investor".toList
    else if containsL "fund".toList lower then "Fund Manager".toList
    else "Analyst".toList
  ⟨qb.speaker_name, company, role⟩

/-- A question paired with its following answer chunks. -/
structure QAPair where
  question : MappedChunk
  answers : List MappedChunk
  question_context : QContext
  question_speaker : List Char
  answer_speakers : List (List Char)
deriving DecidableEq, Repr

/-- Build the pair dict appended by `pair_questions_answers`. -/
def mkQAPair (q : MappedChunk) (answers : List MappedChunk) : QAPair :=
  ⟨q, answers, extract_question_context q, q.speaker_name, answers.map (·.speaker_name)⟩

/-- The two break conditions of the inner answer-collection loop: another
    question chunk, or a moderator chunk whose lower-cased text contains
    the substring `question`. -/
def answerStop (b : MappedChunk) : Bool :=
  is_question_block b ||
  (b.role == "moderator".toList && containsL "question".toList (lowerL b.text))

/-- The inner `while j < N` loop of `pair_questions_answers`, embedded with
    explicit fuel (one unit per iteration) so that it stays structurally
    recursive: the index of the first chunk at or after `j` at which answer
    collection stops. -/
def findAnswersEndF (q : List MappedChunk) : Nat → Nat → Nat
  | 0, j => j
  | fuel + 1, j =>
    if h : j < q.length then
      if answerStop q[j] then j else findAnswersEndF q fuel (j + 1)
    else j

/-- The inner answer-collection loop, with enough fuel for the whole list. -/
def findAnswersEnd (q : List MappedChunk) (j : Nat) : Nat :=
  findAnswersEndF q (q.length + 1) j

/-- The answer scan never moves backwards. -/
theorem le_findAnswersEndF (q : List MappedChunk) (fuel j : Nat) :
    j ≤ findAnswersEndF q fuel j := by
  induction fuel generalizing j with
  | zero => exact Nat.le_refl j
  | succ fuel ih =>
    rw [findAnswersEndF]
    split
    · split
      · exact Nat.le_refl j
      · exact Nat.le_trans (Nat.le_succ j) (ih (j + 1))
    · exact Nat.le_refl j

/-- The outer `while i < N` loop of `pair_questions_answers`, embedded with
    explicit fuel (one unit per pair or skip). -/
def pairLoopF (q : List MappedChunk) : Nat → Nat → List QAPair
  | 0, _ => []
  | fuel + 1, i =>
    if h : i < q.length then
      if is_question_block q[i] then
        let j := findAnswersEnd q (i + 1)
        mkQAPair q[i] ((q.drop (i + 1)).take (j - (i + 1))) :: pairLoopF q fuel j
      else pairLoopF q fuel (i + 1)
    else []

/-- Embedding of `pair_questions_answers` from `utils/parser.py`: run the
    outer loop from index 0 with enough fuel for every iteration. -/
def pair_questions_answers (q : List MappedChunk) : List QAPair :=
  pairLoopF q (q.length + 1) 0

/-- Dropping a while-prefix cannot lengthen a list. -/
theorem dropWhileLenLe (p : α → Bool) (l : List α) : (l.dropWhile p).length ≤ l.length := by
  induction l with
  | nil => simp [List.dropWhile]
  | cons a l ih =>
    simp only [List.dropWhile]
    split
    · exact Nat.le_trans ih (Nat.le_succ _)
    · exact Nat.le_refl _

/-- Reference recursion following the specification's words: scan left to
    right; at a question chunk, take as answers all immediately following
    chunks up to the next question chunk or moderator-announcing-a-question
    chunk, and resume scanning past the collected answers. -/
def pairSpec : List MappedChunk → List QAPair
  | [] => []
  | c :: rest =>
    if is_question_block c then
      mkQAPair c (rest.takeWhile (fun b => !answerStop b)) ::
        pairSpec (rest.dropWhile (fun b => !answerStop b))
    else pairSpec rest
termination_by q => q.length
decreasing_by
  · have := dropWhileLenLe (fun b => !answerStop b) rest
    simp only [List.length_cons]; omega
  · simp only [List.length_cons]; omega

/-! ### Boundary detection (`find_q_a_split`, `find_conference_call_start`) -/

/-- The apostrophe character, used inside several `QA_PATTERNS` literals. -/
def apos : Char := Char.ofNat 39

/-- Build a pattern literal with an apostrophe between the two halves. -/
def aposStr (a b : String) : List Char := a.toList ++ apos :: b.toList

/-- Leftmost `\b w \b` occurrence together with its index, for the pattern
    `\bQ&A\b`. -/
def wordIdxAux (pat : List Char) (prev : Option Char) (i : Nat) : List Char → Option Nat
  | [] => none
  | c :: rest =>
    if boundaryB prev && startsWithL pat (c :: rest) &&
       boundaryA ((c :: rest).drop pat.length)
    then some i else wordIdxAux pat (some c) (i + 1) rest

/-- Index of the leftmost word-bounded occurrence of `pat`. -/
def wordIdx (pat s : List Char) : Option Nat := wordIdxAux pat none 0 s

/-- The `QA_PATTERNS` list of `utils/parser.py` in source order, each as a
    leftmost-match search over the lower-cased text (the code searches with
    `re.I`). -/
def qaMatchers : List (List Char → Option Nat) :=
  [firstIdx "questions and answers".toList,
   firstIdx "question-and-answer".toList,
   wordIdx "q&a".toList,
   firstIdx "operator:".toList,
   firstIdx "we will now open the line for questions".toList,
   firstIdx "first question is from".toList,
   firstIdx "our first question".toList,
   firstIdx "first question".toList,
   firstIdx "now we will open the floor for questions".toList,
   firstIdx (aposStr "let" "s open the floor for questions"),
   firstIdx (aposStr "we" "ll now open the floor for questions"),
   firstIdx (aposStr "now we" "ll take questions"),
   firstIdx (aposStr "let" "s take some questions"),
   firstIdx (aposStr "we" "ll take some questions"),
   firstIdx "questions from the floor".toList,
   firstIdx "questions from analysts".toList,
   firstIdx "analyst questions".toList,
   firstIdx "investor questions".toList]

/-- Run a list of searches in order and keep the first that matches, the
    `for pat in PATTERNS: if m: return` control flow. -/
def scanFirst (fs : List (List Char → Option Nat)) (t : List Char) : Option Nat :=
  match fs with
  | [] => none
  | f :: rest =>
    match f t with
    | some k => some k
    | none => scanFirst rest t

/-- Embedding of `find_q_a_split` from `utils/parser.py`: split the text at
    the start offset of the first pattern (in list order) that matches. -/
def find_q_a_split (full_text : List Char) : List Char × List Char :=
  match scanFirst qaMatchers (lowerL full_text) with
  | some k => (full_text.take k, full_text.drop k)
  | none => (full_text, [])

/-- Leftmost match index of a pattern `a.*b` (`.` not crossing a newline):
    the first position where `a` starts and `b` occurs later on the same
    line. -/
def dotSearchAux (a b : List Char) (i : Nat) : List Char → Option Nat
  | [] => none
  | c :: rest =>
    if startsWithL a (c :: rest) &&
       containsL b (((c :: rest).drop a.length).takeWhile (fun d => !(d == '\n')))
    then some i else dotSearchAux a b (i + 1) rest

/-- Leftmost match of `a.*b` in a string. -/
def dotSearch (a b t : List Char) : Option Nat := dotSearchAux a b 0 t

/-- The greeting patterns of `find_conference_call_start` in source order,
    over lower-cased text. -/
def ccMatchers : List (List Char → Option Nat) :=
  [firstIdx "ladies and gentlemen, welcome to".toList,
   firstIdx "good morning and welcome to".toList,
   firstIdx "good afternoon and welcome to".toList,
   firstIdx "thank you for joining us".toList,
   dotSearch "welcome to".toList "earnings call".toList,
   dotSearch "welcome to".toList "conference call".toList,
   dotSearch "thank you for joining".toList "earnings".toList,
   dotSearch "thank you for joining".toList "conference".toList]

/-- Embedding of `find_conference_call_start` from `utils/pdf_utils.py`. -/
def find_conference_call_start (text : List Char) : Nat :=
  match scanFirst ccMatchers (lowerL text) with
  | some k => k
  | none => 0

/-! ### Text normalization (`clean_text`) -/

/-- Replace every maximal whitespace run by a single space,
    `re.sub(r'\s+', ' ', text)`; `prevSpace` records whether the previous
    character was part of a run. -/
def collapseWSAux (prevSpace : Bool) : List Char → List Char
  | [] => []
  | c :: rest =>
    if pyIsSpace c then
      if prevSpace then collapseWSAux true rest
      else ' ' :: collapseWSAux true rest
    else c :: collapseWSAux false rest

/-- Whitespace-run collapse, the first step of `clean_text`. -/
def collapseWS (s : List Char) : List Char := collapseWSAux false s

/-- Split at `'\n'`, keeping empty pieces (the lines seen by a `MULTILINE`
    `^...$` pattern). -/
def splitNLAux (cur : List Char) : List Char → List (List Char)
  | [] => [cur.reverse]
  | c :: rest =>
    if c == '\n' then cur.reverse :: splitNLAux [] rest
    else splitNLAux (c :: cur) rest

/-- Join with `'\n'`, inverse of the newline split. -/
def joinNL : List (List Char) → List Char
  | [] => []
  | [l] => l
  | l :: ls => l ++ '\n' :: joinNL ls

/-- Does a line match `^\s*\d+\s*$` completely? -/
def pageNumLine (l : List Char) : Bool :=
  let a := l.dropWhile pyIsSpace
  let d := (a.takeWhile Char.isDigit).length
  decide (0 < d) && (a.drop d).all pyIsSpace

/-- The page-number removal step
    `re.sub(r'^\s*\d+\s*$', '', text, flags=re.MULTILINE)`: the content of
    every line that is only whitespace and digits is deleted (the newlines
    themselves remain). -/
def removePageNumLines (s : List Char) : List Char :=
  joinNL ((splitNLAux [] s).map (fun l => if pageNumLine l then [] else l))

/-- Replace every maximal run of non-ASCII characters by a single space,
    `re.sub(r'[^\x00-\x7F]+', ' ', text)`. -/
def collapseNonAsciiAux (prevHigh : Bool) : List Char → List Char
  | [] => []
  | c :: rest =>
    if 127 < c.val then
      if prevHigh then collapseNonAsciiAux true rest
      else ' ' :: collapseNonAsciiAux true rest
    else c :: collapseNonAsciiAux false rest

/-- Non-ASCII collapse, the third step of `clean_text`. -/
def collapseNonAscii (s : List Char) : List Char := collapseNonAsciiAux false s

/-- The global speaker-label normalization
    `re.sub(r'([A-Z][A-Z0-9 \.\-]{2,60})\s*[:\-\—]\s*', r'\1: ', text)`,
    with one fuel unit per consumed character: at each position try the
    greedy group followed by optional whitespace, a separator and trailing
    whitespace; on a match emit the group and `": "` and continue after the
    consumed text. -/
def speakerNormF : Nat → List Char → List Char
  | 0, s => s
  | _ + 1, [] => []
  | fuel + 1, c :: rest =>
    if upperFirst c then
      match searchDown (fun k =>
          decide (3 ≤ k) &&
          (let r := (c :: rest).drop k
           sepChar (r.getD ((r.takeWhile pyIsSpace).length) ' ')))
        (1 + min 60 (rest.takeWhile upperClass).length) with
      | some k =>
        let r := (c :: rest).drop k
        let w := (r.takeWhile pyIsSpace).length
        let r2 := r.drop (w + 1)
        let w2 := (r2.takeWhile pyIsSpace).length
        (c :: rest).take k ++ ':' :: ' ' :: speakerNormF fuel (r2.drop w2)
      | none => c :: speakerNormF fuel rest
    else c :: speakerNormF fuel rest

/-- Speaker-label normalization, the fifth step of `clean_text`. -/
def speakerNorm (s : List Char) : List Char := speakerNormF s.length s

/-- Embedding of `clean_text` from `utils/pdf_utils.py`: whitespace
    collapse, page-number line removal, non-ASCII collapse, form-feed
    replacement, speaker-label normalization, final strip — in source
    order. -/
def clean_text (text : List Char) : List Char :=
  pyStrip (speakerNorm
    ((collapseNonAscii (removePageNumLines (collapseWS text))).map
      (fun c => if c == '\x0c' then '\n' else c)))

/-! ### Date extraction (`extract_date`)

The dateutil call is external; it enters the embedding as an explicit
`parse : List Char → Option α` argument, `none` standing for a parse
failure (the code wraps each call in `try/except`). -/

/-- The capitalized month names of the date pattern, in source order. -/
def monthNames : List (List Char) :=
  ["January".toList, "February".toList, "March".toList, "April".toList,
   "May".toList, "June".toList, "July".toList, "August".toList,
   "September".toList, "October".toList, "November".toList, "December".toList]

/-- Match `(?:Month)\s+\d{1,2},\s*\d{4}\b` at the head of `s`, returning
    the matched length. -/
def monthAt (s : List Char) : Option Nat :=
  match monthNames.findSome? (fun m => if startsWithL m s then some m.length else none) with
  | none => none
  | some ml =>
    let r := s.drop ml
    let w := (r.takeWhile pyIsSpace).length
    if w = 0 then none
    else
      let r2 := r.drop w
      let d := (r2.takeWhile Char.isDigit).length
      if d = 0 || 2 < d then none
      else if !(r2.getD d ' ' == ',') then none
      else
        let r3 := r2.drop (d + 1)
        let w2 := (r3.takeWhile pyIsSpace).length
        let r4 := r3.drop w2
        let d2 := (r4.takeWhile Char.isDigit).length
        if d2 = 4 && boundaryA (r4.drop 4) then some (ml + w + d + 1 + w2 + 4)
        else none

/-- Leftmost match of the month-name date pattern (with its leading `\b`),
    returning the matched substring, `re.findall(...)[0]`. -/
def monthSearchAux (prev : Option Char) : List Char → Option (List Char)
  | [] => none
  | c :: rest =>
    (if boundaryB prev then
       match monthAt (c :: rest) with
       | some len => some ((c :: rest).take len)
       | none => none
     else none) <|> monthSearchAux (some c) rest

/-- First month-name date match in a text. -/
def firstMonthDate (s : List Char) : Option (List Char) := monthSearchAux none s

/-- Match `\d{1,2}/\d{1,2}/\d{2,4}\b` at the head of `s`, returning the
    matched length. -/
def numericAt (s : List Char) : Option Nat :=
  let d1 := (s.takeWhile Char.isDigit).length
  if d1 = 0 || 2 < d1 then none
  else if !(s.getD d1 ' ' == '/') then none
  else
    let r := s.drop (d1 + 1)
    let d2 := (r.takeWhile Char.isDigit).length
    if d2 = 0 || 2 < d2 then none
    else if !(r.getD d2 ' ' == '/') then none
    else
      let r2 := r.drop (d2 + 1)
      let d3 := (r2.takeWhile Char.isDigit).length
      if decide (2 ≤ d3) && decide (d3 ≤ 4) && boundaryA (r2.drop d3) then
        some (d1 + 1 + d2 + 1 + d3)
      else none

/-- Leftmost match of the numeric date pattern (with its leading `\b`),
    returning the matched substring. -/
def numericSearchAux (prev : Option Char) : List Char → Option (List Char)
  | [] => none
  | c :: rest =>
    (if boundaryB prev then
       match numericAt (c :: rest) with
       | some len => some ((c :: rest).take len)
       | none => none
     else none) <|> numericSearchAux (some c) rest

/-- First numeric date match in a text. -/
def firstNumericDate (s : List Char) : Option (List Char) := numericSearchAux none s

/-- Embedding of `extract_date` from `utils/parser.py`, the external
    dateutil parser passed in as `parse`.  A month-name match is parsed
    first; a parse failure is swallowed and the numeric fallback is tried;
    a numeric parse failure yields `none`. -/
def extract_date {α : Type} (parse : List Char → Option α) (text : List Char) : Option α :=
  match firstMonthDate text with
  | some m =>
    match parse m with
    | some d => some d
    | none =>
      match firstNumericDate text with
      | some n => parse n
      | none => none
  | none =>
    match firstNumericDate text with
    | some n => parse n
    | none => none

/-! ### Shared helper lemmas -/

/-- Running the pattern loop equals `findSome?` over the matcher list. -/
theorem scanFirst_eq_findSome (fs : List (List Char → Option Nat)) (t : List Char) :
    scanFirst fs t = fs.findSome? (fun f => f t) := by
  induction fs with
  | nil => rfl
  | cons f rest ih =>
    simp only [scanFirst, List.findSome?]
    cases f t <;> simp [ih]

/-- Taking as many elements as the while-prefix has returns the
    while-prefix itself. -/
theorem takeLenTakeWhile (p : α → Bool) (l : List α) :
    l.take ((l.takeWhile p).length) = l.takeWhile p := by
  induction l with
  | nil => rfl
  | cons a l ih =>
    simp only [List.takeWhile]
    cases h : p a <;> simp [List.take, ih]

/-- Dropping the while-prefix is dropping its length. -/
theorem dropWhileEqDropLen (p : α → Bool) (l : List α) :
    l.dropWhile p = l.drop ((l.takeWhile p).length) := by
  induction l with
  | nil => rfl
  | cons a l ih =>
    simp only [List.dropWhile, List.takeWhile]
    cases h : p a <;> simp [List.drop, ih]

/-! ### Claim theorems -/

/-- C5: `is_question_block` returns true for every chunk whose role is
    `investor`, regardless of the chunk's text content. -/
theorem c5_investor_role_is_question (b : MappedChunk)
    (h : b.role = "investor".toList) : is_question_block b = true := by
  unfold is_question_block
  simp [h]

/-- Witness for C5 at a concrete statement-only investor chunk. -/
theorem c5_investor_role_is_question_witness :
    is_question_block
      ⟨"Bob Lee".toList, "BOB LEE".toList, "investor".toList,
        "we remain confident in the plan.".toList⟩ = true :=
  c5_investor_role_is_question _ rfl

/-- C10: `map_speakers_to_roles` preserves length, order, `speaker_raw` and
    `text`; only `speaker_name` and `role` are derived. -/
theorem c10_map_preserves_raw_and_text (chunks : List SpeakerChunk)
    (ps : List (List Char)) :
    (map_speakers_to_roles chunks ps).length = chunks.length ∧
    (map_speakers_to_roles chunks ps).map (fun m => (m.speaker_raw, m.text)) =
      chunks.map (fun c => (c.speaker_raw, c.text)) := by
  constructor
  · simp [map_speakers_to_roles]
  · unfold map_speakers_to_roles
    rw [List.map_map]
    apply List.map_congr_left
    intro c _
    dsimp only [Function.comp]
    split
    · rfl
    · split
      · rfl
      · split
        · split <;> rfl
        · rfl

/-- C4: `find_q_a_split` returns a pair whose concatenation is the input
    text exactly; it splits at the leftmost occurrence offset of the first
    pattern (in `QA_PATTERNS` list order) that matches, and returns
    `(text, "")` when no pattern matches. -/
theorem c4_find_q_a_split (t : List Char) :
    (find_q_a_split t).1 ++ (find_q_a_split t).2 = t ∧
    find_q_a_split t =
      (match qaMatchers.findSome? (fun f => f (lowerL t)) with
       | some k => (t.take k, t.drop k)
       | none => (t, [])) := by
  constructor
  · unfold find_q_a_split
    cases h : scanFirst qaMatchers (lowerL t) with
    | none => simp
    | some k => simp [List.take_append_drop]
  · unfold find_q_a_split
    rw [scanFirst_eq_findSome]

/-- C6: `find_conference_call_start` returns the first-occurrence offset of
    the first greeting pattern in list order that matches anywhere, not the
    earliest match across all patterns, and 0 when no pattern matches; on
    the demonstration text the fourth pattern matches at offset 0 yet the
    result is 26, the offset of the first-listed pattern. -/
theorem c6_find_conference_call_start :
    (∀ t : List Char,
      find_conference_call_start t =
        (ccMatchers.findSome? (fun f => f (lowerL t))).getD 0) ∧
    find_conference_call_start
      "Thank you for joining us. Ladies and gentlemen, welcome to the call".toList = 26 ∧
    firstIdx "thank you for joining us".toList
      (lowerL "Thank you for joining us. Ladies and gentlemen, welcome to the call".toList) =
      some 0 ∧
    find_conference_call_start "no greeting of any recognised kind".toList = 0 := by
  refine ⟨fun t => ?_, by decide, by decide, by decide⟩
  unfold find_conference_call_start
  rw [scanFirst_eq_findSome]
  cases ccMatchers.findSome? (fun f => f (lowerL t)) <;> rfl

/-- C7: in `clean_text` the whitespace collapse runs before the
    page-number-line removal, so an interior line consisting only of a page
    number survives (the code contradicts the documented step); the digits
    are removed only when the whole text is one page-number line. -/
theorem c7_page_number_line_survives :
    clean_text "foo\n12\nbar".toList = "foo 12 bar".toList ∧
    containsL "12".toList (clean_text "foo\n12\nbar".toList) = true ∧
    clean_text "12".toList = [] := by decide

/-- C9: `extract_date` parses the first month-name match when present; a
    month parse failure is swallowed and treated as no match (falling back
    to the numeric pattern); with no month match the first numeric match is
    parsed; with neither match, or a failing numeric parse, the result is
    `none` — never an exception (the embedding is a total function into
    `Option`). -/
theorem c9_extract_date_control_flow {α : Type} (parse : List Char → Option α)
    (t : List Char) :
    (firstMonthDate t = none →
      extract_date parse t = (firstNumericDate t).bind parse) ∧
    (∀ m, firstMonthDate t = some m → ∀ d, parse m = some d →
      extract_date parse t = some d) ∧
    (∀ m, firstMonthDate t = some m → parse m = none →
      extract_date parse t = (firstNumericDate t).bind parse) ∧
    (firstMonthDate t = none → firstNumericDate t = none →
      extract_date parse t = none) := by
  refine ⟨fun h => ?_, fun m hm d hd => ?_, fun m hm hp => ?_, fun h hn => ?_⟩
  · unfold extract_date
    rw [h]
    cases firstNumericDate t <;> rfl
  · simp [extract_date, hm, hd]
  · simp only [extract_date, hm, hp]
    cases firstNumericDate t <;> rfl
  · unfold extract_date
    rw [h, hn]

/-- Witness for C9: the month branch fires and returns the parsed value on
    a concrete text and parser. -/
theorem c9_extract_date_control_flow_witness :
    extract_date
      (fun s => if s == "January 5, 2024".toList then some 1 else none)
      "held on January 5, 2024 at noon".toList = some 1 :=
  (c9_extract_date_control_flow
      (fun s => if s == "January 5, 2024".toList then some 1 else none)
      "held on January 5, 2024 at noon".toList).2.1
    "January 5, 2024".toList (by decide) 1 (by decide)

/-- C3: evaluation of `map_speakers_to_roles` at the failing input of the
    specification's Example 3.  With rapidfuzz's `token_sort_ratio` under
    the library's default `processor=None` (case-sensitive), the raw label
    `"MS. JANE DOE"` scores 30 against the participant `"Jane Doe"`, below
    the 75 threshold, so the chunk is mapped to role `investor` with the
    raw label kept — not to management `"Jane Doe"` as the specification's
    example states. -/
theorem c3_ms_jane_doe_maps_to_investor :
    map_speakers_to_roles [⟨"MS. JANE DOE".toList, "Thanks for taking it.".toList⟩]
        ["Jane Doe".toList] =
      [⟨"MS. JANE DOE".toList, "MS. JANE DOE".toList, "investor".toList,
          "Thanks for taking it.".toList⟩] ∧
    token_sort_ratio "MS. JANE DOE".toList "Jane Doe".toList = mkRat 30 1 ∧
    map_speakers_to_roles [⟨" operator ".toList, "First question please.".toList⟩]
        ["Jane Doe".toList] =
      [⟨" operator ".toList, " operator ".toList, "moderator".toList,
          "First question please.".toList⟩] := by decide

/-- The inner answer loop stops exactly after the while-prefix of
    non-stopping chunks that follows its start index. -/
theorem findAnswersEndF_spec (q : List MappedChunk) :
    ∀ fuel j, q.length ≤ j + fuel →
      findAnswersEndF q fuel j =
        j + ((q.drop j).takeWhile (fun b => !answerStop b)).length := by
  intro fuel
  induction fuel with
  | zero =>
    intro j h
    have hd : q.drop j = [] := List.drop_eq_nil_of_le (by omega)
    simp [findAnswersEndF, hd]
  | succ fuel ih =>
    intro j h
    rw [findAnswersEndF]
    split
    · next hj =>
        rw [List.drop_eq_getElem_cons hj]
        cases hstop : answerStop q[j] with
        | true => simp [List.takeWhile, hstop]
        | false =>
          simp [List.takeWhile, hstop, ih (j + 1) (by omega)]
          omega
    · next hj =>
        have hd : q.drop j = [] := List.drop_eq_nil_of_le (by omega)
        simp [hd]

/-- The outer pairing loop at index `i` computes the reference recursion on
    the list suffix from `i`. -/
theorem pairLoopF_spec (q : List MappedChunk) :
    ∀ fuel i, q.length < i + fuel → pairLoopF q fuel i = pairSpec (q.drop i) := by
  intro fuel
  induction fuel with
  | zero =>
    intro i h
    have hd : q.drop i = [] := List.drop_eq_nil_of_le (by omega)
    simp [pairLoopF, hd, pairSpec]
  | succ fuel ih =>
    intro i h
    rw [pairLoopF]
    split
    · next hi =>
        rw [List.drop_eq_getElem_cons hi, pairSpec]
        cases hq : is_question_block q[i] with
        | false => simp [hq, ih (i + 1) (by omega)]
        | true =>
          simp only [hq, if_true]
          have hfae :
              findAnswersEnd q (i + 1) =
                (i + 1) + ((q.drop (i + 1)).takeWhile (fun b => !answerStop b)).length :=
            findAnswersEndF_spec q (q.length + 1) (i + 1) (by omega)
          rw [hfae]
          have h1 :
              (i + 1) + ((q.drop (i + 1)).takeWhile (fun b => !answerStop b)).length -
                (i + 1) =
              ((q.drop (i + 1)).takeWhile (fun b => !answerStop b)).length := by omega
          rw [h1, takeLenTakeWhile,
            ih ((i + 1) + ((q.drop (i + 1)).takeWhile (fun b => !answerStop b)).length)
              (by omega)]
          congr 1
          rw [dropWhileEqDropLen, List.drop_drop, Nat.add_comm]
    · next hi =>
        have hd : q.drop i = [] := List.drop_eq_nil_of_le (by omega)
        simp [hd, pairSpec]

/-- C1: `pair_questions_answers` scans left to right, and at each chunk
    satisfying the question predicate collects as answers all immediately
    following chunks up to the next question chunk or a moderator chunk
    whose text contains "question", then resumes past the collected
    answers (it equals the reference recursion `pairSpec` on every input);
    on the concrete example — a question chunk, two management chunks, a
    moderator chunk containing "next question" — the answers are exactly
    the two management chunks and the scan resumes at the moderator chunk. -/
theorem c1_pair_scan_equivalence :
    (∀ q : List MappedChunk, pair_questions_answers q = pairSpec q) ∧
    pair_questions_answers
      [⟨"Jane Analyst".toList, "JANE ANALYST".toList, "investor".toList,
          "What is your revenue outlook?".toList⟩,
        ⟨"John Doe".toList, "JOHN DOE".toList, "management".toList,
          "Revenue will grow.".toList⟩,
        ⟨"Mary Roe".toList, "MARY ROE".toList, "management".toList,
          "Margins stay flat.".toList⟩,
        ⟨"OPERATOR".toList, "OPERATOR".toList, "moderator".toList,
          "Our next question comes from Bob.".toList⟩] =
      [mkQAPair
          ⟨"Jane Analyst".toList, "JANE ANALYST".toList, "investor".toList,
            "What is your revenue outlook?".toList⟩
          [⟨"John Doe".toList, "JOHN DOE".toList, "management".toList,
              "Revenue will grow.".toList⟩,
            ⟨"Mary Roe".toList, "MARY ROE".toList, "management".toList,
              "Margins stay flat.".toList⟩],
        mkQAPair
          ⟨"OPERATOR".toList, "OPERATOR".toList, "moderator".toList,
            "Our next question comes from Bob.".toList⟩ []] := by
  constructor
  · intro q
    have h := pairLoopF_spec q (q.length + 1) 0 (by omega)
    simpa [pair_questions_answers] using h
  · decide

/-- A stripped line on which the chunker detects no speaker: both
    speaker-line patterns fail, and the recovery heuristic either does not
    consider the line likely or extracts an empty speaker from it. -/
def noSpeakerDetect (ℓ : List Char) : Prop :=
  speakerLineMatch upperFirst upperClass ℓ = none ∧
  speakerLineMatch alphaFirst alphaClass ℓ = none ∧
  (is_likely_speaker_line ℓ = false ∨ (extract_speaker_from_line ℓ).1 = [])

instance (ℓ : List Char) : Decidable (noSpeakerDetect ℓ) := by
  unfold noSpeakerDetect; infer_instance

/-- The stripped non-blank lines of a line list. -/
def stripNB (lines : List (List Char)) : List (List Char) :=
  (lines.map pyStrip).filter (fun l => !l.isEmpty)

/-- The stripped non-blank lines of a text. -/
def nbLines (t : List Char) : List (List Char) := stripNB (splitlines t)

/-- With no detectable speakers and an open chunk, the chunker only appends
    the stripped non-blank lines to the open chunk's text. -/
theorem c8_foldl_some (lines : List (List Char))
    (h : ∀ ℓ ∈ lines, noSpeakerDetect (pyStrip ℓ)) (chunks : List SpeakerChunk)
    (sp : List Char) :
    ∀ txt, lines.foldl stepLine ⟨chunks, some ⟨sp, txt⟩⟩ =
      ⟨chunks, some ⟨sp, (stripNB lines).foldl (fun a b => a ++ '\n' :: b) txt⟩⟩ := by
  induction lines with
  | nil => intro txt; simp [stripNB]
  | cons ℓ rest ih =>
    intro txt
    obtain ⟨h1, h2, _⟩ := h ℓ (by simp)
    have ht : ∀ m ∈ rest, noSpeakerDetect (pyStrip m) := fun m hm => h m (by simp [hm])
    by_cases he : (pyStrip ℓ).isEmpty
    · have hstep : stepLine ⟨chunks, some ⟨sp, txt⟩⟩ ℓ = ⟨chunks, some ⟨sp, txt⟩⟩ := by
        simp [stepLine, he]
      rw [List.foldl_cons, hstep, ih ht txt]
      have : stripNB (ℓ :: rest) = stripNB rest := by simp [stripNB, he]
      rw [this]
    · have hstep : stepLine ⟨chunks, some ⟨sp, txt⟩⟩ ℓ =
          ⟨chunks, some ⟨sp, txt ++ '\n' :: pyStrip ℓ⟩⟩ := by
        simp [stepLine, he, h1, h2]
      rw [List.foldl_cons, hstep, ih ht (txt ++ '\n' :: pyStrip ℓ)]
      have : stripNB (ℓ :: rest) = pyStrip ℓ :: stripNB rest := by simp [stripNB, he]
      rw [this, List.foldl_cons]

/-- With no detectable speakers and no open chunk, the chunker emits
    nothing and accumulates every stripped non-blank line into a single
    `UNKNOWN` chunk. -/
theorem c8_foldl_none (lines : List (List Char))
    (h : ∀ ℓ ∈ lines, noSpeakerDetect (pyStrip ℓ)) :
    lines.foldl stepLine ⟨[], none⟩ =
      (match stripNB lines with
       | [] => (⟨[], none⟩ : ChunkState)
       | l :: ls =>
         ⟨[], some ⟨"UNKNOWN".toList, ls.foldl (fun a b => a ++ '\n' :: b) l⟩⟩) := by
  induction lines with
  | nil => simp [stripNB]
  | cons ℓ rest ih =>
    obtain ⟨h1, h2, h3⟩ := h ℓ (by simp)
    have ht : ∀ m ∈ rest, noSpeakerDetect (pyStrip m) := fun m hm => h m (by simp [hm])
    by_cases he : (pyStrip ℓ).isEmpty
    · have hstep : stepLine ⟨[], none⟩ ℓ = ⟨[], none⟩ := by simp [stepLine, he]
      rw [List.foldl_cons, hstep, ih ht]
      have : stripNB (ℓ :: rest) = stripNB rest := by simp [stripNB, he]
      rw [this]
    · have hstep : stepLine ⟨[], none⟩ ℓ =
          ⟨[], some ⟨"UNKNOWN".toList, pyStrip ℓ⟩⟩ := by
        rcases h3 with h3 | h3
        · simp [stepLine, he, h1, h2, h3]
        · by_cases hl : is_likely_speaker_line (pyStrip ℓ)
          · simp [stepLine, he, h1, h2, hl, h3, List.isEmpty_iff]
          · simp [stepLine, he, h1, h2, hl]
      rw [List.foldl_cons, hstep,
        c8_foldl_some rest ht [] ("UNKNOWN".toList) (pyStrip ℓ)]
      have : stripNB (ℓ :: rest) = pyStrip ℓ :: stripNB rest := by simp [stripNB, he]
      rw [this]

/-- C8: on a text with zero speaker-label lines, `basic_speaker_chunks`
    produces no chunk when the text has no non-blank line, and otherwise
    exactly one chunk with `speaker_raw = "UNKNOWN"` whose text joins all
    stripped non-blank lines of the input with newlines. -/
theorem c8_no_speaker_lines (t : List Char)
    (h : ∀ ℓ ∈ splitlines t, noSpeakerDetect (pyStrip ℓ)) :
    basic_speaker_chunks t =
      (match nbLines t with
       | [] => []
       | l :: ls =>
         [⟨"UNKNOWN".toList, ls.foldl (fun a b => a ++ '\n' :: b) l⟩]) := by
  unfold basic_speaker_chunks nbLines
  rw [c8_foldl_none (splitlines t) h]
  cases stripNB (splitlines t) with
  | nil => rfl
  | cons l ls => rfl

/-- Witness for C8 on a concrete two-line text with no speaker labels. -/
theorem c8_no_speaker_lines_witness :
    basic_speaker_chunks "hello world\n\nmore text here".toList =
      [⟨"UNKNOWN".toList, "hello world\nmore text here".toList⟩] := by
  rw [c8_no_speaker_lines "hello world\n\nmore text here".toList (by decide)]
  decide

/-! ### Character accounting for the speaker chunker (C2) -/

/-- Erase whitespace and the speaker-separator characters from a string;
    the normalization under which the chunker loses no characters. -/
def eraseNS (s : List Char) : List Char :=
  s.filter (fun c => !(pyIsSpace c || sepChar c))

/-- A successful downward search satisfies its predicate. -/
theorem searchDown_ok (ok : Nat → Bool) :
    ∀ n k, searchDown ok n = some k → ok k = true := by
  intro n
  induction n with
  | zero => intro k h; simp [searchDown] at h
  | succ n ih =>
    intro k h
    rw [searchDown] at h
    split at h
    · next hok => cases h; exact hok
    · exact ih k h

/-- Erasure distributes over concatenation. -/
theorem eraseNS_append (l m : List Char) :
    eraseNS (l ++ m) = eraseNS l ++ eraseNS m := by
  simp [eraseNS]

/-- Erasure ignores a dropped whitespace prefix. -/
theorem eraseNS_dropWhile_space (l : List Char) :
    eraseNS (l.dropWhile pyIsSpace) = eraseNS l := by
  induction l with
  | nil => rfl
  | cons a l ih =>
    simp only [List.dropWhile]
    cases ha : pyIsSpace a with
    | true => rw [ih]; simp [eraseNS, List.filter_cons, ha]
    | false => rfl

/-- Erasure commutes with reversal. -/
theorem eraseNS_reverse (l : List Char) :
    eraseNS l.reverse = (eraseNS l).reverse := by
  simp [eraseNS]

/-- Stripping does not change the erasure. -/
theorem eraseNS_strip (l : List Char) : eraseNS (pyStrip l) = eraseNS l := by
  unfold pyStrip
  rw [eraseNS_reverse, eraseNS_dropWhile_space, eraseNS_reverse,
    List.reverse_reverse, eraseNS_dropWhile_space]

/-- On a newline-free string the message cut `takeWhile (· != '\n')` is the
    identity. -/
theorem takeWhile_ne_newline (l : List Char) (h : '\n' ∉ l) :
    l.takeWhile (fun d => !(d == '\n')) = l :=
  List.takeWhile_eq_self_iff.mpr (fun x hx => by
    simp only [Bool.not_eq_eq_eq_not, Bool.not_true, beq_eq_false_iff_ne, ne_eq]
    exact fun he => h (he ▸ hx))

/-- A whitespace-only string erases to nothing. -/
theorem eraseNS_of_all_space (l : List Char) (h : ∀ x ∈ l, pyIsSpace x = true) :
    eraseNS l = [] := by
  simp only [eraseNS]
  exact List.filter_eq_nil_iff.mpr (fun x hx => by simp [h x hx])

/-- The stored message group of a speaker match erases to the erasure of
    the text after the separator. -/
theorem eraseNS_msgGroup (rest : List Char) (hn : '\n' ∉ rest) :
    eraseNS (msgGroup rest) = eraseNS rest := by
  by_cases hlt : (rest.takeWhile pyIsSpace).length < rest.length
  · rw [show msgGroup rest =
        pyStrip ((rest.drop ((rest.takeWhile pyIsSpace).length)).takeWhile
          (fun d => !(d == '\n'))) from by simp [msgGroup, hlt]]
    rw [eraseNS_strip, ← dropWhileEqDropLen, takeWhile_ne_newline _
        (fun hm => hn ((List.dropWhile_suffix pyIsSpace).sublist.mem hm)),
      eraseNS_dropWhile_space]
  · rw [show msgGroup rest = [] from by simp [msgGroup, hlt]]
    have hlen : (rest.takeWhile pyIsSpace).length = rest.length :=
      Nat.le_antisymm (List.takeWhile_prefix pyIsSpace).length_le (by omega)
    have heq : rest.takeWhile pyIsSpace = rest :=
      (List.takeWhile_prefix pyIsSpace).eq_of_length hlen
    exact (eraseNS_of_all_space rest
      (fun x hx => List.mem_takeWhile_imp (heq ▸ hx))).symm

/-- A separator read through `getD` implies the index is in range. -/
theorem sep_getD_lt (line : List Char) (k : Nat)
    (h : sepChar (line.getD k ' ') = true) : k < line.length := by
  by_contra hk
  rw [List.getD_eq_default line ' ' (by omega)] at h
  simp [sepChar] at h

/-- A successful speaker-line match splits the erased line into the erased
    speaker and message groups: only whitespace and the separator are
    dropped. -/
theorem speakerMatch_erase (first cls : Char → Bool) (line sp msg : List Char)
    (hn : '\n' ∉ line) (h : speakerLineMatch first cls line = some (sp, msg)) :
    eraseNS line = eraseNS sp ++ eraseNS msg := by
  cases line with
  | nil => simp [speakerLineMatch] at h
  | cons c rest =>
    simp only [speakerLineMatch] at h
    split at h
    · split at h
      · next k hsd =>
        cases h
        have hok := searchDown_ok _ _ _ hsd
        simp only [Bool.and_eq_true] at hok
        obtain ⟨⟨-, hsep⟩, -⟩ := hok
        have hlt : k < (c :: rest).length := sep_getD_lt _ _ hsep
        have hget : sepChar ((c :: rest)[k]) = true := by
          rw [← List.getD_eq_getElem (c :: rest) ' ' hlt]; exact hsep
        calc eraseNS (c :: rest)
            = eraseNS ((c :: rest).take k ++ (c :: rest).drop k) := by
              rw [List.take_append_drop]
          _ = eraseNS ((c :: rest).take k) ++
                eraseNS ((c :: rest)[k] :: (c :: rest).drop (k + 1)) := by
              rw [List.drop_eq_getElem_cons hlt, eraseNS_append]
          _ = eraseNS ((c :: rest).take k) ++ eraseNS ((c :: rest).drop (k + 1)) := by
              simp [eraseNS, List.filter_cons, hget]
          _ = eraseNS (pyStrip ((c :: rest).take k)) ++
                eraseNS (msgGroup ((c :: rest).drop (k + 1))) := by
              rw [eraseNS_strip, eraseNS_msgGroup _
                (fun hm => hn ((List.drop_suffix (k + 1) (c :: rest)).sublist.mem hm))]
      · cases h
    · cases h

/-- The capital-letter recovery pattern also splits the erased line into
    erased speaker and message. -/
theorem extractCap_erase (line sp msg : List Char) (hn : '\n' ∉ line)
    (h : extractCapMatch line = some (sp, msg)) :
    eraseNS line = eraseNS sp ++ eraseNS msg := by
  cases line with
  | nil => simp [extractCapMatch] at h
  | cons c rest =>
    simp only [extractCapMatch] at h
    split at h
    · split at h
      · next k hsd =>
        cases h
        have hnr : '\n' ∉ (c :: rest).drop k :=
          fun hm => hn ((List.drop_suffix k (c :: rest)).sublist.mem hm)
        calc eraseNS (c :: rest)
            = eraseNS ((c :: rest).take k ++ (c :: rest).drop k) := by
              rw [List.take_append_drop]
          _ = eraseNS ((c :: rest).take k) ++ eraseNS ((c :: rest).drop k) := by
              rw [eraseNS_append]
          _ = eraseNS (pyStrip ((c :: rest).take k)) ++
                eraseNS (pyStrip ((((c :: rest).drop k).drop
                  ((((c :: rest).drop k).takeWhile pyIsSpace).length)).takeWhile
                    (fun d => !(d == '\n')))) := by
              rw [eraseNS_strip, eraseNS_strip, ← dropWhileEqDropLen,
                takeWhile_ne_newline _
                  (fun hm => hnr ((List.dropWhile_suffix pyIsSpace).sublist.mem hm)),
                eraseNS_dropWhile_space]
      · cases h
    · cases h

/-- `extract_speaker_from_line` never loses characters outside whitespace
    and separators: the erased line is the erased speaker followed by the
    erased message (with an empty speaker on total failure). -/
theorem extract_speaker_erase (line : List Char) (hn : '\n' ∉ line) :
    eraseNS line =
      eraseNS (extract_speaker_from_line line).1 ++
        eraseNS (extract_speaker_from_line line).2 := by
  unfold extract_speaker_from_line
  cases h1 : speakerLineMatch upperFirst upperClass line with
  | some r =>
    obtain ⟨sp, msg⟩ := r
    simpa using speakerMatch_erase upperFirst upperClass line sp msg hn h1
  | none =>
    cases h2 : speakerLineMatch alphaFirst alphaClass line with
    | some r =>
      obtain ⟨sp, msg⟩ := r
      simpa using speakerMatch_erase alphaFirst alphaClass line sp msg hn h2
    | none =>
      cases h3 : extractCapMatch line with
      | some r =>
        obtain ⟨sp, msg⟩ := r
        simpa using extractCap_erase line sp msg hn h3
      | none => simp [eraseNS]

set_option maxHeartbeats 1000000

/-- Unfolding equation for `splitlinesAux` on a cons that is not a
    `"\r\n"` pair. -/
theorem splitlinesAux_cons_eq (cur : List Char) (c : Char) (rest : List Char)
    (hne : ∀ (r2 : List Char), c = '\r' → rest = '\n' :: r2 → False) :
    splitlinesAux cur (c :: rest) =
      (if isLineBreak c then cur.reverse :: splitlinesAux [] rest
       else splitlinesAux (c :: cur) rest) := by
  rw [splitlinesAux.eq_def]
  split
  · next h => exact absurd h (by simp)
  · next r2 h1 =>
    injection h1 with hc hr
    exact absurd (hne r2 hc hr) (fun h => h)
  · next heq =>
    injection heq with hc hr
    subst hc; subst hr; rfl

set_option maxHeartbeats 200000

/-- No produced line contains a newline character. -/
theorem splitlinesAux_no_newline (cur s : List Char) :
    (∀ c ∈ cur, c ≠ '\n') → ∀ ℓ ∈ splitlinesAux cur s, ∀ c ∈ ℓ, c ≠ '\n' := by
  induction cur, s using splitlinesAux.induct with
  | case1 cur hemp =>
    intro hc ℓ hℓ
    rw [splitlinesAux] at hℓ
    simp [hemp] at hℓ
  | case2 cur hemp =>
    intro hc ℓ hℓ
    rw [splitlinesAux] at hℓ
    rw [if_neg hemp, List.mem_singleton] at hℓ
    subst hℓ
    intro c hcℓ
    exact hc c (List.mem_reverse.mp hcℓ)
  | case3 cur rest ih =>
    intro hc ℓ hℓ
    rw [splitlinesAux] at hℓ
    rcases List.mem_cons.mp hℓ with h | h
    · subst h; intro c hcℓ; exact hc c (List.mem_reverse.mp hcℓ)
    · exact ih (by simp) ℓ h
  | case4 cur c rest hne hlb ih =>
    intro hc ℓ hℓ
    rw [splitlinesAux_cons_eq cur c rest hne, if_pos hlb] at hℓ
    rcases List.mem_cons.mp hℓ with h | h
    · subst h; intro c2 hc2; exact hc c2 (List.mem_reverse.mp hc2)
    · exact ih (by simp) ℓ h
  | case5 cur c rest hne hnlb ih =>
    intro hc ℓ hℓ
    rw [splitlinesAux_cons_eq cur c rest hne, if_neg hnlb] at hℓ
    refine ih ?_ ℓ hℓ
    intro c2 hc2
    rcases List.mem_cons.mp hc2 with h | h
    · subst h
      intro heq
      subst heq
      exact hnlb (by simp [isLineBreak])
    · exact hc c2 h

/-- No line of `splitlines` contains a newline. -/
theorem splitlines_no_newline (t : List Char) :
    ∀ ℓ ∈ splitlines t, '\n' ∉ ℓ :=
  fun ℓ hℓ hmem =>
    splitlinesAux_no_newline [] t (by simp) ℓ hℓ '\n' hmem rfl

/-- Stripping only removes characters. -/
theorem mem_pyStrip (a : Char) (l : List Char) (h : a ∈ pyStrip l) : a ∈ l := by
  unfold pyStrip at h
  rw [List.mem_reverse] at h
  have h2 := (List.dropWhile_suffix pyIsSpace).sublist.mem h
  rw [List.mem_reverse] at h2
  exact (List.dropWhile_suffix pyIsSpace).sublist.mem h2

/-- A line is accounted for in a chunk collection when its erasure occurs
    contiguously inside the erased `speaker_raw ++ text` of some chunk. -/
def accountedIn (ℓ : List Char) (cs : List SpeakerChunk) : Prop :=
  ∃ c ∈ cs, ∃ a b, eraseNS (c.speaker_raw ++ c.text) = a ++ eraseNS ℓ ++ b

/-- A chunker step on a blank line does nothing. -/
theorem stepLine_blank (st : ChunkState) (line : List Char)
    (h : (pyStrip line).isEmpty = true) : stepLine st line = st := by
  unfold stepLine
  simp [h]

/-- A chunker step on a detected speaker line closes the open chunk and
    opens a new one. -/
theorem stepLine_speaker (st : ChunkState) (line sp msg : List Char)
    (h : (pyStrip line).isEmpty = false)
    (hm : (speakerLineMatch upperFirst upperClass (pyStrip line) <|>
        speakerLineMatch alphaFirst alphaClass (pyStrip line)) = some (sp, msg)) :
    stepLine st line = ⟨st.chunks ++ st.cur.toList, some ⟨sp, msg⟩⟩ := by
  unfold stepLine
  simp [h, hm]

/-- A chunker step on a continuation line appends to the open chunk. -/
theorem stepLine_cont (st : ChunkState) (line : List Char) (c0 : SpeakerChunk)
    (h : (pyStrip line).isEmpty = false)
    (hm : (speakerLineMatch upperFirst upperClass (pyStrip line) <|>
        speakerLineMatch alphaFirst alphaClass (pyStrip line)) = none)
    (hc : st.cur = some c0) :
    stepLine st line =
      ⟨st.chunks, some ⟨c0.speaker_raw, c0.text ++ '\n' :: pyStrip line⟩⟩ := by
  unfold stepLine
  simp [h, hm, hc]

/-- A chunker step on an unmatched first line opens a fresh chunk, emitting
    nothing; its erased content ends with the erased line. -/
theorem stepLine_fresh (st : ChunkState) (line : List Char)
    (h : (pyStrip line).isEmpty = false)
    (hm : (speakerLineMatch upperFirst upperClass (pyStrip line) <|>
        speakerLineMatch alphaFirst alphaClass (pyStrip line)) = none)
    (hc : st.cur = none) (hn : '\n' ∉ pyStrip line) :
    ∃ sp txt, stepLine st line = ⟨st.chunks, some ⟨sp, txt⟩⟩ ∧
      ∃ a, eraseNS (sp ++ txt) = a ++ eraseNS (pyStrip line) := by
  unfold stepLine
  by_cases hl : is_likely_speaker_line (pyStrip line)
  · by_cases hsp : (extract_speaker_from_line (pyStrip line)).1.isEmpty
    · exact ⟨"UNKNOWN".toList, pyStrip line, by simp [h, hm, hc, hl, hsp],
        eraseNS ("UNKNOWN".toList), by rw [eraseNS_append]⟩
    · refine ⟨(extract_speaker_from_line (pyStrip line)).1,
        (extract_speaker_from_line (pyStrip line)).2,
        by simp [h, hm, hc, hl, hsp], [], ?_⟩
      rw [eraseNS_append, ← extract_speaker_erase _ hn]
      simp
  · exact ⟨"UNKNOWN".toList, pyStrip line, by simp [h, hm, hc, hl],
      eraseNS ("UNKNOWN".toList), by rw [eraseNS_append]⟩

/-- Shape of a fresh-chunk step: nothing is emitted and some chunk opens. -/
theorem stepLine_fresh_shape (st : ChunkState) (line : List Char)
    (h : (pyStrip line).isEmpty = false)
    (hm : (speakerLineMatch upperFirst upperClass (pyStrip line) <|>
        speakerLineMatch alphaFirst alphaClass (pyStrip line)) = none)
    (hc : st.cur = none) :
    ∃ sp txt, stepLine st line = ⟨st.chunks, some ⟨sp, txt⟩⟩ := by
  unfold stepLine
  by_cases hl : is_likely_speaker_line (pyStrip line)
  · by_cases hsp : (extract_speaker_from_line (pyStrip line)).1.isEmpty
    · exact ⟨"UNKNOWN".toList, pyStrip line, by simp [h, hm, hc, hl, hsp]⟩
    · exact ⟨(extract_speaker_from_line (pyStrip line)).1,
        (extract_speaker_from_line (pyStrip line)).2, by simp [h, hm, hc, hl, hsp]⟩
  · exact ⟨"UNKNOWN".toList, pyStrip line, by simp [h, hm, hc, hl]⟩

/-- One chunker step preserves the accounting of any line. -/
theorem accounted_step (st : ChunkState) (line ℓ : List Char)
    (h : accountedIn ℓ (st.chunks ++ st.cur.toList)) :
    accountedIn ℓ ((stepLine st line).chunks ++ (stepLine st line).cur.toList) := by
  obtain ⟨c, hc, a, b, heq⟩ := h
  cases he : (pyStrip line).isEmpty with
  | true =>
    rw [stepLine_blank st line he]
    exact ⟨c, hc, a, b, heq⟩
  | false =>
    cases hm : speakerLineMatch upperFirst upperClass (pyStrip line) <|>
        speakerLineMatch alphaFirst alphaClass (pyStrip line) with
    | some sm =>
      obtain ⟨sp, msg⟩ := sm
      rw [stepLine_speaker st line sp msg he hm]
      exact ⟨c, List.mem_append_left _ hc, a, b, heq⟩
    | none =>
      cases hcur : st.cur with
      | some c0 =>
        rw [stepLine_cont st line c0 he hm hcur]
        rw [hcur] at hc
        rcases List.mem_append.mp hc with hcl | hcr
        · exact ⟨c, List.mem_append_left _ hcl, a, b, heq⟩
        · simp only [Option.toList_some, List.mem_singleton] at hcr
          subst hcr
          refine ⟨⟨c.speaker_raw, c.text ++ '\n' :: pyStrip line⟩,
            List.mem_append_right _ (by simp), a,
            b ++ eraseNS ('\n' :: pyStrip line), ?_⟩
          show eraseNS (c.speaker_raw ++ (c.text ++ '\n' :: pyStrip line)) = _
          rw [← List.append_assoc, eraseNS_append, heq]
          simp [List.append_assoc]
      | none =>
        obtain ⟨sp, txt, hstep⟩ := stepLine_fresh_shape st line he hm hcur
        rw [hstep]
        rw [hcur] at hc
        simp only [Option.toList_none, List.append_nil] at hc
        exact ⟨c, List.mem_append_left _ hc, a, b, heq⟩

/-- The step on a non-blank newline-free line accounts for that line. -/
theorem accounted_self (st : ChunkState) (ℓ : List Char)
    (hne : (pyStrip ℓ).isEmpty = false) (hn : '\n' ∉ ℓ) :
    accountedIn ℓ ((stepLine st ℓ).chunks ++ (stepLine st ℓ).cur.toList) := by
  have hn' : '\n' ∉ pyStrip ℓ := fun hm => hn (mem_pyStrip _ _ hm)
  have hes : eraseNS (pyStrip ℓ) = eraseNS ℓ := eraseNS_strip ℓ
  cases h1 : speakerLineMatch upperFirst upperClass (pyStrip ℓ) with
  | some r =>
    obtain ⟨sp, msg⟩ := r
    have herase := speakerMatch_erase _ _ _ _ _ hn' h1
    rw [stepLine_speaker st ℓ sp msg hne (by rw [h1]; rfl)]
    refine ⟨⟨sp, msg⟩, List.mem_append_right _ (by simp), [], [], ?_⟩
    rw [eraseNS_append, ← herase, hes]
    simp
  | none =>
    cases h2 : speakerLineMatch alphaFirst alphaClass (pyStrip ℓ) with
    | some r =>
      obtain ⟨sp, msg⟩ := r
      have herase := speakerMatch_erase _ _ _ _ _ hn' h2
      rw [stepLine_speaker st ℓ sp msg hne (by rw [h1, h2]; rfl)]
      refine ⟨⟨sp, msg⟩, List.mem_append_right _ (by simp), [], [], ?_⟩
      rw [eraseNS_append, ← herase, hes]
      simp
    | none =>
      have hm : (speakerLineMatch upperFirst upperClass (pyStrip ℓ) <|>
          speakerLineMatch alphaFirst alphaClass (pyStrip ℓ)) = none := by
        rw [h1, h2]; rfl
      cases hcur : st.cur with
      | some c0 =>
        rw [stepLine_cont st ℓ c0 hne hm hcur]
        refine ⟨⟨c0.speaker_raw, c0.text ++ '\n' :: pyStrip ℓ⟩,
          List.mem_append_right _ (by simp),
          eraseNS (c0.speaker_raw ++ c0.text), [], ?_⟩
        show eraseNS (c0.speaker_raw ++ (c0.text ++ '\n' :: pyStrip ℓ)) = _
        rw [← List.append_assoc, eraseNS_append]
        have hnl : eraseNS ('\n' :: pyStrip ℓ) = eraseNS ℓ := by
          rw [← hes]
          simp [eraseNS, List.filter_cons, pyIsSpace]
        rw [hnl]
        simp
      | none =>
        obtain ⟨sp, txt, hstep, a, hea⟩ := stepLine_fresh st ℓ hne hm hcur hn'
        rw [hstep]
        refine ⟨⟨sp, txt⟩, List.mem_append_right _ (by simp), a, [], ?_⟩
        rw [hea, hes]
        simp

/-- Accounting is preserved along any remaining fold of the chunker. -/
theorem accounted_fold (lines : List (List Char)) (st : ChunkState) (ℓ : List Char)
    (h : accountedIn ℓ (st.chunks ++ st.cur.toList)) :
    accountedIn ℓ
      ((lines.foldl stepLine st).chunks ++ (lines.foldl stepLine st).cur.toList) := by
  induction lines generalizing st with
  | nil => exact h
  | cons l rest ih => exact ih (stepLine st l) (accounted_step st l ℓ h)

/-- Every non-blank newline-free member line is accounted for after the
    fold. -/
theorem accounted_mem_fold (lines : List (List Char)) (st : ChunkState)
    (ℓ : List Char) (hmem : ℓ ∈ lines) (hne : (pyStrip ℓ).isEmpty = false)
    (hn : '\n' ∉ ℓ) :
    accountedIn ℓ
      ((lines.foldl stepLine st).chunks ++ (lines.foldl stepLine st).cur.toList) := by
  induction lines generalizing st with
  | nil => exact absurd hmem (List.not_mem_nil ℓ)
  | cons l rest ih =>
    rcases List.mem_cons.mp hmem with h | h
    · subst h
      exact accounted_fold rest (stepLine st ℓ) ℓ (accounted_self st ℓ hne hn)
    · exact ih (stepLine st l) h

/-- C2 counterexample evaluation: for the speaker line
    `"JOHN SMITH: Hello"`, the concatenated chunk texts are `"Hello"` and do
    not contain the input's single non-blank line. -/
theorem c2_line_not_in_chunk_texts :
    basic_speaker_chunks "JOHN SMITH: Hello".toList =
      [⟨"JOHN SMITH".toList, "Hello".toList⟩] ∧
    splitlines "JOHN SMITH: Hello".toList = ["JOHN SMITH: Hello".toList] ∧
    pyStrip "JOHN SMITH: Hello".toList = "JOHN SMITH: Hello".toList ∧
    containsL "JOHN SMITH: Hello".toList
      ((basic_speaker_chunks "JOHN SMITH: Hello".toList).map (·.text)).flatten = false := by
  decide

/-- C2 (amended): every non-blank line of the input is contained in the
    output chunks once the speaker-label split is taken into account: after
    erasing whitespace and the separator characters, each line occurs
    contiguously inside the erased `speaker_raw ++ text` of some chunk, so
    no other characters are lost. -/
theorem c2_each_line_accounted (t : List Char) :
    ∀ ℓ ∈ splitlines t, (pyStrip ℓ).isEmpty = false →
      ∃ c ∈ basic_speaker_chunks t, ∃ a b,
        eraseNS (c.speaker_raw ++ c.text) = a ++ eraseNS ℓ ++ b := by
  intro ℓ hℓ hne
  have hn : '\n' ∉ ℓ := splitlines_no_newline t ℓ hℓ
  have h := accounted_mem_fold (splitlines t) ⟨[], none⟩ ℓ hℓ hne hn
  exact h

/-- Witness for C2 (amended) on the counterexample text itself. -/
theorem c2_each_line_accounted_witness :
    ∃ c ∈ basic_speaker_chunks "JOHN SMITH: Hello".toList, ∃ a b,
      eraseNS (c.speaker_raw ++ c.text) =
        a ++ eraseNS "JOHN SMITH: Hello".toList ++ b :=
  c2_each_line_accounted "JOHN SMITH: Hello".toList
    "JOHN SMITH: Hello".toList (by decide) (by decide)

end EarningsCall
